import Mathlib

/-!
Verification development for the mesh ingestion pipeline of the
`graphics-fundamentals` repository (src/obj_parse.rs, src/model.rs,
src/resources.rs).

The embedding works over exact arithmetic:
* Rust `f32` values are modelled as rationals (`ℚ`); arithmetic is exact
  (no rounding is modelled).  All concrete inputs used in theorems below
  only involve values and operations that are exact in `f32` as well
  (small integers and dyadic fractions), so the concrete evaluations
  agree with the real program.
* `sqrt` (used by `cgmath`'s `normalize`) is modelled either by an explicit
  parameter `sq : ℚ → ℚ` constrained by hypotheses at exactly the values
  where it is applied, or by the concrete function `sqrtQ` below, which is
  exact on perfect rational squares (all concrete inputs are chosen so
  that every square root taken is of a perfect square).
* For properties that hinge on IEEE special values (NaN/inf), a second
  embedding of the tangent-space code over an extended value type `FV`
  (rationals plus NaN and signed infinities with IEEE propagation rules)
  is given further below.
* Rust `u32`/`usize` are modelled as `ℕ`; the single narrowing cast in the
  source (`index as u32` in obj_parse.rs) is modelled with an explicit
  `% 2^32`.
* `HashMap<K, usize>` is modelled as an association list with
  first-match lookup; keys are only ever inserted when absent, so this is
  observationally the same finite map.
* File reading is not modelled: the parsing functions take the file
  content as an explicit `String` argument next to the file path (the
  path is still threaded through because the source stores it in error
  values).  The `FileNotFound` constructors of the source error enums are
  therefore omitted.
* Rust panics (out-of-bounds indexing, debug-mode subtraction overflow)
  are modelled by an explicit `panic` outcome / `Option.none`.
-/

/- Concrete evaluations below reduce rational arithmetic inside the kernel;
the batteries library marks these operations irreducible for elaboration
performance only. -/
attribute [local semireducible] Rat.mul Rat.add Rat.sub Rat.inv

/-! ## Character-level string utilities (Rust std behaviour) -/

/-- Rust `char::is_ascii_whitespace`: space, tab, newline, form feed,
carriage return. -/
def isAsciiWS (c : Char) : Bool :=
  c = ' ' || c = '\t' || c = '\n' || c = '\x0c' || c = '\r'

/-- Split a character list at every occurrence of the separator,
keeping empty fragments — the behaviour of Rust `str::split` with a
single-character pattern. -/
def splitOnChar (sep : Char) : List Char → List (List Char)
  | [] => [[]]
  | c :: cs =>
    match splitOnChar sep cs with
    | [] => [[c]]
    | hd :: tl => if c = sep then [] :: hd :: tl else (c :: hd) :: tl

/-- Split at every ASCII-whitespace character, keeping empty fragments. -/
def splitWSAll : List Char → List (List Char)
  | [] => [[]]
  | c :: cs =>
    match splitWSAll cs with
    | [] => [[c]]
    | hd :: tl => if isAsciiWS c then [] :: hd :: tl else (c :: hd) :: tl

/-- Rust `str::split_ascii_whitespace`: whitespace-separated tokens,
empty fragments dropped. -/
def tokensOf (l : List Char) : List (List Char) :=
  (splitWSAll l).filter (fun w => !w.isEmpty)

/-- Drop one trailing carriage return, as Rust `str::lines` does per line. -/
def dropTrailingCR (l : List Char) : List Char :=
  if l.getLast? = some '\r' then l.dropLast else l

/-- Rust `str::lines`: split on newline; a final newline does not produce a
trailing empty line; a trailing carriage return is stripped from each line. -/
def linesOf (s : List Char) : List (List Char) :=
  let parts := splitOnChar '\n' s
  let parts := if parts.getLast? = some [] then parts.dropLast else parts
  parts.map dropTrailingCR

/-- `startsWithL s p` is Rust `s.starts_with(p)` on character lists. -/
def startsWithL : List Char → List Char → Bool
  | _, [] => true
  | [], _ :: _ => false
  | c :: cs, p :: ps => c = p && startsWithL cs ps

/-- Numeric value of a digit string. -/
def digitsVal (l : List Char) : ℕ :=
  l.foldl (fun n c => n * 10 + (c.toNat - 48)) 0

/-- Rust `str::parse::<u32>()`: optional leading `+`, then one or more
ASCII digits; overflow beyond `u32::MAX` is an error. -/
def parseU32 (tok : List Char) : Option ℕ :=
  let t := match tok with
    | '+' :: rest => rest
    | _ => tok
  if t.isEmpty then none
  else if t.all (fun c => c.isDigit) then
    let n := digitsVal t
    if n < 4294967296 then some n else none
  else none

/-- Split a character list at the first occurrence of `e`/`E`
(exponent marker); returns the mantissa part and, when present, the
exponent part. -/
def splitAtExp : List Char → List Char × Option (List Char)
  | [] => ([], none)
  | c :: cs =>
    if c = 'e' || c = 'E' then ([], some cs)
    else
      let (m, e) := splitAtExp cs
      (c :: m, e)

/-- Split a character list at the first dot. -/
def splitAtDot : List Char → List Char × Option (List Char)
  | [] => ([], none)
  | c :: cs =>
    if c = '.' then ([], some cs)
    else
      let (m, e) := splitAtDot cs
      (c :: m, e)

/-- Parse an optionally signed decimal integer (for exponents). -/
def parseExpInt (tok : List Char) : Option ℤ :=
  let (sgn, t) : ℤ × List Char := match tok with
    | '+' :: rest => (1, rest)
    | '-' :: rest => (-1, rest)
    | _ => (1, tok)
  if t.isEmpty then none
  else if t.all (fun c => c.isDigit) then some (sgn * (digitsVal t : ℤ))
  else none

/-- Rust `str::parse::<f32>()` restricted to finite decimal literals:
optional sign, decimal digits with an optional fractional part, and an
optional exponent.  The special spellings `inf`/`infinity`/`nan` of the
Rust grammar are not modelled (no claim involves them), and the value is
kept exact instead of being rounded to the nearest `f32` (every concrete
literal appearing in the theorems below is exactly representable). -/
def parseF32 (tok : List Char) : Option ℚ :=
  let (sgn, t) : ℚ × List Char := match tok with
    | '+' :: rest => (1, rest)
    | '-' :: rest => (-1, rest)
    | _ => (1, tok)
  let (mant, expPart) := splitAtExp t
  let (ipart, fpartOpt) := splitAtDot mant
  let fpart := fpartOpt.getD []
  if (ipart ++ fpart).isEmpty then none
  else if (ipart ++ fpart).all (fun c => c.isDigit) then
    let base : ℚ := (digitsVal (ipart ++ fpart) : ℚ) / (10 ^ fpart.length : ℕ)
    match expPart with
    | none => some (sgn * base)
    | some etok =>
      match parseExpInt etok with
      | none => none
      | some e =>
        if 0 ≤ e then some (sgn * base * 10 ^ e.toNat)
        else some (sgn * base / 10 ^ (-e).toNat)
  else none

/-! ## Data model (obj_parse.rs, model.rs) -/

/-- Exact-arithmetic 3-vector (models `[f32; 3]` / `cgmath::Vector3<f32>`;
the parser also uses it for the `(f32, f32, f32)` tuples of the source). -/
structure V3 where
  x : ℚ
  y : ℚ
  z : ℚ
deriving DecidableEq

/-- `model::ModelVertex` with `f32` replaced by `ℚ`. -/
structure ModelVertex where
  position : V3
  tex_coords : ℚ × ℚ
  normal : V3
  tangent : V3
  bitangent : V3
deriving DecidableEq

/-- `obj_parse::ParsedOBJ`. -/
structure ParsedOBJ where
  model_verts : List ModelVertex
  raw_verts : List V3
  raw_uvs : List (ℚ × ℚ)
  raw_normals : List V3
  indices : List ℕ
  material : Option String
  material_lib : Option String
deriving DecidableEq

/-- Outcome of `parse_obj`: `Ok`, `OBJLoadError::Parse(path, line, msg)`, or a
Rust panic (the source can panic via out-of-bounds `Vec` indexing and via
debug-mode integer underflow).  `FileNotFound` is not modelled because the
embedding receives the file content directly. -/
inductive OBJResult where
  | ok (p : ParsedOBJ)
  | parseError (path : String) (line : ℕ) (msg : String)
  | panic (msg : String)
deriving DecidableEq

def OBJResult.isOk : OBJResult → Bool
  | .ok _ => true
  | _ => false

/-- Result type of `parse_face_line` (`Result<Vec<Vec<u32>>, ParseIntError>` in
the source).  Each face-vertex group is modelled directly as the key triple
obtained after `fv.resize(3, 1)`: resizing pads with `1` (and truncates longer
groups), and the caller only reads elements 0..2, which is exactly
`(fv.getD 0 1, fv.getD 1 1, fv.getD 2 1)`. -/
inductive FaceRes where
  | ok (tris : List (ℕ × ℕ × ℕ))
  | err
deriving DecidableEq

/-- The face-vertex triples of a face line: tokens after the keyword, each
split on `/`, each component parsed as `u32` with parse failures replaced by
`1` (`unwrap_or(1)` in the source), then resized to length 3 with filler `1`. -/
def faceTriples (line : List Char) : List (ℕ × ℕ × ℕ) :=
  ((tokensOf line).drop 1).map (fun ft =>
    let fv := (splitOnChar '/' ft).map (fun i => (parseU32 i).getD 1)
    (fv.getD 0 1, fv.getD 1 1, fv.getD 2 1))

/-- `obj_parse::parse_face_line`.  Note that the source wraps the whole
computation in `Ok(...)` and maps every token parse failure to `1`, so the
error case of its `Result` type is unreachable. -/
def parse_face_line (line : List Char) : FaceRes :=
  .ok (faceTriples line)

/-- `obj_parse::parse_vector_line`: every whitespace token after the keyword
parsed as `f32`, the first failure aborting (`collect::<Result<Vec<_>,_>>`). -/
def parse_vector_line (line : List Char) : Option (List ℚ) :=
  let rec go : List (List Char) → Option (List ℚ)
    | [] => some []
    | t :: ts =>
      match parseF32 t, go ts with
      | some q, some qs => some (q :: qs)
      | _, _ => none
  go ((tokensOf line).drop 1)

/-- Mutable state of the `parse_obj` loop. -/
structure OBJState where
  raw_verts : List V3
  raw_uvs : List (ℚ × ℚ)
  raw_normals : List V3
  fmap : List ((ℕ × ℕ × ℕ) × ℕ)
  indices : List ℕ
  model_verts : List ModelVertex
  material : Option String
  material_lib : Option String
deriving DecidableEq

def initOBJState : OBJState :=
  ⟨[], [], [], [], [], [], none, none⟩

/-- First-match association-list lookup (models `HashMap::get`). -/
def lookupA : List ((ℕ × ℕ × ℕ) × ℕ) → (ℕ × ℕ × ℕ) → Option ℕ
  | [], _ => none
  | (k, i) :: rest, q => if k = q then some i else lookupA rest q

/-- Build the `ModelVertex` for a fresh key, reading the raw attribute arrays
gathered so far.  `none` models a Rust panic: the source computes
`key.0 as usize - 1` (debug-mode underflow panic when the index is `0`) and
indexes `raw_verts[...]` directly (out-of-bounds panic), while the uv/normal
lookups use `.get(..).unwrap_or(default)` and therefore cannot fail once the
`- 1` underflow is excluded. -/
def mkVertex (st : OBJState) (k : ℕ × ℕ × ℕ) : Option ModelVertex :=
  if k.1 = 0 ∨ k.2.1 = 0 ∨ k.2.2 = 0 then none
  else
    match st.raw_verts.get? (k.1 - 1) with
    | none => none
    | some p =>
      some { position := p
             tex_coords := (st.raw_uvs.get? (k.2.1 - 1)).getD (0, 0)
             normal := (st.raw_normals.get? (k.2.2 - 1)).getD ⟨0, 0, 0⟩
             tangent := ⟨0, 0, 0⟩
             bitangent := ⟨0, 0, 0⟩ }

/-- Process one face-vertex key: reuse the mapped slot if present, otherwise
append a fresh vertex and record the key.  `indices.push(index as u32)` is the
one narrowing cast of the source, modelled with `% 2^32`. -/
def pushKey (st : OBJState) (k : ℕ × ℕ × ℕ) : Option OBJState :=
  match lookupA st.fmap k with
  | some i => some { st with indices := st.indices ++ [i % 4294967296] }
  | none =>
    (mkVertex st k).map (fun v =>
      { st with
        model_verts := st.model_verts ++ [v]
        fmap := (k, st.model_verts.length) :: st.fmap
        indices := st.indices ++ [st.model_verts.length % 4294967296] })

/-- Process all face-vertex keys of one face line, left to right. -/
def processFace : OBJState → List (ℕ × ℕ × ℕ) → Option OBJState
  | st, [] => some st
  | st, k :: ks =>
    match pushKey st k with
    | some st2 => processFace st2 ks
    | none => none

def mkParsedOBJ (st : OBJState) : ParsedOBJ :=
  { model_verts := st.model_verts
    raw_verts := st.raw_verts
    raw_uvs := st.raw_uvs
    raw_normals := st.raw_normals
    indices := st.indices
    material := st.material
    material_lib := st.material_lib }

/-- The line loop of `parse_obj`.  Branches mirror the source exactly:
comment, face (`starts_with("f")`), vector (`starts_with("v")`, refined to
`vn` / `vt` / position), and the `mtllib` / `usemtl` directives.  Note the
source reports float parse errors with the file *content* in the path slot
(`file.to_string()`), and line numbers are the 0-based `enumerate` indices. -/
def objLoop (filepath content : String) :
    List (ℕ × List Char) → OBJState → OBJResult
  | [], st => .ok (mkParsedOBJ st)
  | (linenum, line) :: rest, st =>
    if startsWithL line "#".data then objLoop filepath content rest st
    else if startsWithL line "f".data then
      match parse_face_line line with
      | .ok tris =>
        match processFace st tris with
        | some st2 => objLoop filepath content rest st2
        | none => .panic "index out of bounds"
      | .err => .parseError filepath linenum "could not parse faces"
    else if startsWithL line "v".data then
      match parse_vector_line line with
      | some linevec =>
        if startsWithL line "vn".data then
          match linevec with
          | x :: y :: z :: _ =>
            objLoop filepath content rest { st with raw_normals := st.raw_normals ++ [⟨x, y, z⟩] }
          | _ => .panic "index out of bounds"
        else if startsWithL line "vt".data then
          match linevec with
          | x :: y :: _ =>
            objLoop filepath content rest { st with raw_uvs := st.raw_uvs ++ [(x, y)] }
          | _ => .panic "index out of bounds"
        else
          match linevec with
          | x :: y :: z :: _ =>
            objLoop filepath content rest { st with raw_verts := st.raw_verts ++ [⟨x, y, z⟩] }
          | _ => .panic "index out of bounds"
      | none => .parseError content linenum "could not parse float: invalid float literal"
    else if startsWithL line "mtllib".data then
      objLoop filepath content rest
        { st with material_lib := ((tokensOf line).get? 1).map (fun t => String.mk t) }
    else if startsWithL line "usemtl".data then
      objLoop filepath content rest
        { st with material := ((tokensOf line).get? 1).map (fun t => String.mk t) }
    else objLoop filepath content rest st

/-- `obj_parse::parse_obj`, with the file content passed in place of the
filesystem read. -/
def parse_obj (filepath content : String) : OBJResult :=
  objLoop filepath content ((linesOf content.data).enum) initOBJState

/-! ## Material parser (obj_parse.rs) -/

/-- `obj_parse::ParsedMTL` (with `f32` as `ℚ` and `u16` as `ℕ`). -/
structure ParsedMTL where
  name : Option String := none
  ka : Option (ℚ × ℚ × ℚ) := none
  kd : Option (ℚ × ℚ × ℚ) := none
  ks : Option (ℚ × ℚ × ℚ) := none
  ns : Option ℚ := none
  d : Option ℚ := none
  ni : Option ℚ := none
  illum : Option ℕ := none
  map_bump : Option String := none
  map_kd : Option String := none
deriving DecidableEq

/-- Outcome of `parse_mtl`.  `FileNotFound` is again omitted; `panic` models
the out-of-bounds indexing `v[0] / v[1] / v[2]` on a color line whose vector
parsed to fewer than 3 floats. -/
inductive MTLResult where
  | ok (p : ParsedMTL)
  | parseError (path : String) (line : ℕ) (msg : String)
  | notFound (msg : String)
  | panic (msg : String)
deriving DecidableEq

def MTLResult.isNotFound : MTLResult → Bool
  | .notFound _ => true
  | _ => false

def MTLResult.isOk : MTLResult → Bool
  | .ok _ => true
  | _ => false

/-- Failure of a single material property line: a parse error (with message
suffix) or a panic from indexing a short color vector. -/
inductive MtlLineErr where
  | perr (msg : String)
  | pan
deriving DecidableEq

/-- `obj_parse::parse_float_line`: second whitespace token (or the empty
string) parsed as `f32`. -/
def parse_float_line (line : List Char) : Option ℚ :=
  parseF32 (((tokensOf line).get? 1).getD [])

/-- Saturating `f32`-to-`u16` cast (`f as u16` in the source): truncates
toward zero and clamps to `[0, 65535]`. -/
def toU16 (q : ℚ) : ℕ :=
  if q ≤ 0 then 0
  else if (65535 : ℚ) ≤ q then 65535
  else q.floor.toNat

/-- `obj_parse::parse_mtl_line`: prefix-dispatched property parser.  The
branches appear in source order; note the lowercase `ni` prefix (the standard
MTL spelling is `Ni`) and the bare `d` prefix (matching any line that starts
with the letter d). -/
def parse_mtl_line (parsed : ParsedMTL) (line : List Char) :
    Except MtlLineErr ParsedMTL :=
  if startsWithL line "Ka".data then
    match parse_vector_line line with
    | some v =>
      match v with
      | a :: b :: c :: _ => .ok { parsed with ka := some (a, b, c) }
      | _ => .error .pan
    | none => .error (.perr "Ka")
  else if startsWithL line "Kd".data then
    match parse_vector_line line with
    | some v =>
      match v with
      | a :: b :: c :: _ => .ok { parsed with kd := some (a, b, c) }
      | _ => .error .pan
    | none => .error (.perr "Kd")
  else if startsWithL line "Ks".data then
    match parse_vector_line line with
    | some v =>
      match v with
      | a :: b :: c :: _ => .ok { parsed with ks := some (a, b, c) }
      | _ => .error .pan
    | none => .error (.perr "Ks")
  else if startsWithL line "Ns".data then
    match parse_float_line line with
    | some f => .ok { parsed with ns := some f }
    | none => .error (.perr "Ns")
  else if startsWithL line "d".data then
    match parse_float_line line with
    | some f => .ok { parsed with d := some f }
    | none => .error (.perr "d")
  else if startsWithL line "ni".data then
    match parse_float_line line with
    | some f => .ok { parsed with ni := some f }
    | none => .error (.perr "ni")
  else if startsWithL line "illum".data then
    match parse_float_line line with
    | some f => .ok { parsed with illum := some (toU16 f) }
    | none => .error (.perr "illum")
  else if startsWithL line "map_Bump".data then
    .ok { parsed with map_bump := ((tokensOf line).get? 1).map (fun t => String.mk t) }
  else if startsWithL line "map_Kd".data then
    .ok { parsed with map_kd := ((tokensOf line).get? 1).map (fun t => String.mk t) }
  else .ok parsed

/-- Lift a property-line failure into the `parse_mtl` result (the source
error carries the file path, the 0-based line number, and
`"could not parse" + suffix`). -/
def mtlLineFail (filepath : String) (linenum : ℕ) : MtlLineErr → MTLResult
  | .perr s => .parseError filepath linenum ("could not parse" ++ s)
  | .pan => .panic "index out of bounds"

/-- The line loop of `parse_mtl`: skip comments; on a `newmtl` line, either
start collecting (prefix match against `"newmtl " + name`) or — if already
collecting — stop (`break`, which the post-loop check turns into `Ok`);
property lines are parsed only while collecting. -/
def mtlLoop (filepath name : String) :
    List (ℕ × List Char) → ParsedMTL → Bool → MTLResult
  | [], parsed, found =>
    if found then .ok parsed
    else .notFound (name ++ " not found in " ++ filepath)
  | (linenum, line) :: rest, parsed, found =>
    if startsWithL line "#".data then mtlLoop filepath name rest parsed found
    else if startsWithL line "newmtl".data then
      if startsWithL line ("newmtl ".data ++ name.data) then
        mtlLoop filepath name rest { parsed with name := some name } true
      else if found then .ok parsed
      else mtlLoop filepath name rest parsed found
    else if found then
      match parse_mtl_line parsed line with
      | .ok parsed2 => mtlLoop filepath name rest parsed2 found
      | .error e => mtlLineFail filepath linenum e
    else mtlLoop filepath name rest parsed found

/-- `obj_parse::parse_mtl`, with the file content passed in place of the
filesystem read. -/
def parse_mtl (filepath content name : String) : MTLResult :=
  mtlLoop filepath name ((linesOf content.data).enum) {} false

/-! ## Tangent-space builder, exact-arithmetic model
(model.rs `Mesh::from_verts_inds`, resources.rs `calculate_tbs`) -/

/-- Largest `r` with `r * r ≤ n`, by linear search (kernel-friendly; only
applied to small concrete numbers). -/
def natSqrtL (n : ℕ) : ℕ :=
  (List.range (n + 1)).foldl (fun acc r => if r * r ≤ n then r else acc) 0

/-- Exact square root on perfect rational squares (`0` otherwise).  Used to
instantiate the `sq` parameter in concrete evaluations; every square root
taken in those evaluations is of a perfect square, where this agrees with
`f32::sqrt`. -/
def sqrtQ (q : ℚ) : ℚ :=
  let r : ℚ := (natSqrtL q.num.toNat : ℚ) / (natSqrtL q.den : ℚ)
  if r * r = q then r else 0

def addV (a b : V3) : V3 := ⟨a.x + b.x, a.y + b.y, a.z + b.z⟩

def subV (a b : V3) : V3 := ⟨a.x - b.x, a.y - b.y, a.z - b.z⟩

def negV (a : V3) : V3 := ⟨-a.x, -a.y, -a.z⟩

def smulV (a : V3) (s : ℚ) : V3 := ⟨a.x * s, a.y * s, a.z * s⟩

def dotV (a b : V3) : ℚ := a.x * b.x + a.y * b.y + a.z * b.z

/-- `cgmath` `Vector3::cross`. -/
def crossV (a b : V3) : V3 :=
  ⟨a.y * b.z - a.z * b.y, a.z * b.x - a.x * b.z, a.x * b.y - a.y * b.x⟩

/-- `cgmath` `InnerSpace::normalize`: `self * (1 / self.magnitude())`, with
`magnitude = sqrt(dot self self)` supplied through the `sq` parameter.
(Over `ℚ`, division by a zero magnitude yields the zero vector; the IEEE
model below yields NaN there, as `f32` does.) -/
def normalizeV (sq : ℚ → ℚ) (v : V3) : V3 :=
  smulV v (1 / sq (dotV v v))

def unitZ : V3 := ⟨0, 0, 1⟩

def unitY : V3 := ⟨0, 1, 0⟩

/-- The UV-delta determinant `det_denom` of a triangle. -/
def detUV (v0 v1 v2 : ModelVertex) : ℚ :=
  (v1.tex_coords.1 - v0.tex_coords.1) * (v2.tex_coords.2 - v0.tex_coords.2) -
    (v1.tex_coords.2 - v0.tex_coords.2) * (v2.tex_coords.1 - v0.tex_coords.1)

/-- The arbitrary axis chosen by the degenerate-UV fallback: world unit-Z
unless the first vertex normal's Z component has magnitude at least 0.999,
in which case unit-Y. -/
def arbOf (normal : V3) : V3 :=
  if |normal.z| < 999 / 1000 then unitZ else unitY

/-- Per-triangle tangent and bitangent of resources.rs `calculate_tbs`
(the two-output variant).  `DET_EPSILON = 0.0001`. -/
def tbTriangle (sq : ℚ → ℚ) (v0 v1 v2 : ModelVertex) : V3 × V3 :=
  let delta_pos_0_1 := subV v1.position v0.position
  let delta_pos_0_2 := subV v2.position v0.position
  let duv1 : ℚ × ℚ := (v1.tex_coords.1 - v0.tex_coords.1, v1.tex_coords.2 - v0.tex_coords.2)
  let duv2 : ℚ × ℚ := (v2.tex_coords.1 - v0.tex_coords.1, v2.tex_coords.2 - v0.tex_coords.2)
  let det_denom := duv1.1 * duv2.2 - duv1.2 * duv2.1
  if |det_denom| ≤ 1 / 10000 then
    let normal := v0.normal
    let arb := arbOf normal
    let tangent := normalizeV sq (crossV arb normal)
    (tangent, crossV normal tangent)
  else
    let r := 1 / det_denom
    (smulV (subV (smulV delta_pos_0_1 duv2.2) (smulV delta_pos_0_2 duv1.2)) r,
     smulV (subV (smulV delta_pos_0_2 duv1.1) (smulV delta_pos_0_1 duv2.1)) r)

/-- Per-triangle tangent of model.rs `Mesh::from_verts_inds` (the
single-output variant; the non-degenerate branch divides by `det_denom`
instead of multiplying by its reciprocal). -/
def triTangentM (sq : ℚ → ℚ) (v0 v1 v2 : ModelVertex) : V3 :=
  let delta_pos_0_1 := subV v1.position v0.position
  let delta_pos_0_2 := subV v2.position v0.position
  let duv1 : ℚ × ℚ := (v1.tex_coords.1 - v0.tex_coords.1, v1.tex_coords.2 - v0.tex_coords.2)
  let duv2 : ℚ × ℚ := (v2.tex_coords.1 - v0.tex_coords.1, v2.tex_coords.2 - v0.tex_coords.2)
  let det_denom := duv1.1 * duv2.2 - duv1.2 * duv2.1
  if |det_denom| ≤ 1 / 10000 then
    normalizeV sq (crossV (arbOf v0.normal) v0.normal)
  else
    let num := subV (smulV delta_pos_0_1 duv2.2) (smulV delta_pos_0_2 duv1.2)
    ⟨num.x / det_denom, num.y / det_denom, num.z / det_denom⟩

/-- Add `t` into the tangent accumulator of vertex `i` (one source line of
the accumulation loop; reads the current value, as the source does). -/
def accT (vs : List ModelVertex) (i : ℕ) (t : V3) : List ModelVertex :=
  match vs.get? i with
  | some v => vs.set i { v with tangent := addV t v.tangent }
  | none => vs

/-- Add `b` into the bitangent accumulator of vertex `i`. -/
def accB (vs : List ModelVertex) (i : ℕ) (b : V3) : List ModelVertex :=
  match vs.get? i with
  | some v => vs.set i { v with bitangent := addV b v.bitangent }
  | none => vs

/-- The accumulation loop of `calculate_tbs` over consecutive index triples.
`none` models the panics of the source: a trailing chunk shorter than 3
(`ti[1]` / `ti[2]` out of bounds) or an index not smaller than the vertex
count (`model_verts[ti[0] as usize]` out of bounds). -/
def tbLoopQ (sq : ℚ → ℚ) : List ℕ → List ModelVertex → Option (List ModelVertex)
  | [], vs => some vs
  | i0 :: i1 :: i2 :: rest, vs =>
    match vs.get? i0, vs.get? i1, vs.get? i2 with
    | some v0, some v1, some v2 =>
      let tb := tbTriangle sq v0 v1 v2
      let vs := accT vs i0 tb.1
      let vs := accT vs i1 tb.1
      let vs := accT vs i2 tb.1
      let vs := accB vs i0 tb.2
      let vs := accB vs i1 tb.2
      let vs := accB vs i2 tb.2
      tbLoopQ sq rest vs
    | _, _, _ => none
  | _ :: _, _ => none

/-- The finalization pass, applied to every vertex after accumulation
(identical in model.rs lines 300-308 and resources.rs lines 337-344):
Gram-Schmidt the accumulated tangent against the normal, normalize, and
derive the bitangent as `normalize(cross(tangent_gs, -normal))`. -/
def finalizeVert (sq : ℚ → ℚ) (v : ModelVertex) : ModelVertex :=
  let vn := v.normal
  let vt := v.tangent
  let tangent_gs := normalizeV sq (subV vt (smulV vn (dotV vn vt)))
  { v with tangent := tangent_gs
           bitangent := normalizeV sq (crossV tangent_gs (negV vn)) }

/-- The Gram-Schmidt residual fed to `normalize` in the finalization pass. -/
def residualGS (v : ModelVertex) : V3 :=
  subV v.tangent (smulV v.normal (dotV v.normal v.tangent))

/-- resources.rs `calculate_tbs` (the `vertex_face_count` bookkeeping of the
source is computed but never used — its consumer is commented out — and is
omitted). -/
def calculate_tbs (sq : ℚ → ℚ) (indices : List ℕ) (model_verts : List ModelVertex) :
    Option (List ModelVertex) :=
  (tbLoopQ sq indices model_verts).map (List.map (finalizeVert sq))

/-- The accumulation loop of model.rs `Mesh::from_verts_inds` (tangent only). -/
def tbLoopM (sq : ℚ → ℚ) : List ℕ → List ModelVertex → Option (List ModelVertex)
  | [], vs => some vs
  | i0 :: i1 :: i2 :: rest, vs =>
    match vs.get? i0, vs.get? i1, vs.get? i2 with
    | some v0, some v1, some v2 =>
      let t := triTangentM sq v0 v1 v2
      let vs := accT vs i0 t
      let vs := accT vs i1 t
      let vs := accT vs i2 t
      tbLoopM sq rest vs
    | _, _, _ => none
  | _ :: _, _ => none

/-- The vertex-processing part of model.rs `Mesh::from_verts_inds` (the GPU
buffer creation is out of scope): assert that the index count is a multiple
of 3, accumulate per-triangle tangents, finalize every vertex. -/
def from_verts_inds_tb (sq : ℚ → ℚ) (verts : List ModelVertex) (inds : List ℕ) :
    Option (List ModelVertex) :=
  if inds.length % 3 = 0 then
    (tbLoopM sq inds verts).map (List.map (finalizeVert sq))
  else none

/-! ## Tangent-space builder, IEEE special-value model

A second embedding of the same source code over the extended value type
`FV` = rationals plus NaN and signed infinities, with the IEEE-754
propagation rules for these special values (finite arithmetic stays exact:
rounding and overflow are not modelled).  This captures exactly the
behaviour the `ℚ` model cannot: in `f32`, normalizing the zero vector
computes `0 * (1/0) = 0 * inf = NaN`. -/

inductive FV where
  | fin (q : ℚ)
  | inf
  | ninf
  | nan
deriving DecidableEq

def FV.neg : FV → FV
  | .fin q => .fin (-q)
  | .inf => .ninf
  | .ninf => .inf
  | .nan => .nan

def FV.add : FV → FV → FV
  | .nan, _ => .nan
  | .fin q, w =>
    match w with
    | .fin r => .fin (q + r)
    | .inf => .inf
    | .ninf => .ninf
    | .nan => .nan
  | .inf, w =>
    match w with
    | .fin _ => .inf
    | .inf => .inf
    | .ninf => .nan
    | .nan => .nan
  | .ninf, w =>
    match w with
    | .fin _ => .ninf
    | .inf => .nan
    | .ninf => .ninf
    | .nan => .nan

def FV.sub (a b : FV) : FV := FV.add a (FV.neg b)

def FV.mul : FV → FV → FV
  | .nan, _ => .nan
  | .fin q, w =>
    match w with
    | .fin r => .fin (q * r)
    | .inf => if 0 < q then .inf else if q < 0 then .ninf else .nan
    | .ninf => if 0 < q then .ninf else if q < 0 then .inf else .nan
    | .nan => .nan
  | .inf, w =>
    match w with
    | .fin r => if 0 < r then .inf else if r < 0 then .ninf else .nan
    | .inf => .inf
    | .ninf => .ninf
    | .nan => .nan
  | .ninf, w =>
    match w with
    | .fin r => if 0 < r then .ninf else if r < 0 then .inf else .nan
    | .inf => .ninf
    | .ninf => .inf
    | .nan => .nan

/-- IEEE division.  Signed zero is not modelled: a zero denominator is
treated as `+0`, which matches every division the embedded code performs
(the only zero denominator that can arise is a zero magnitude, and
`sqrt(+0) = +0`). -/
def FV.div : FV → FV → FV
  | .nan, _ => .nan
  | .fin q, w =>
    match w with
    | .fin r =>
      if r = 0 then (if 0 < q then .inf else if q < 0 then .ninf else .nan)
      else .fin (q / r)
    | .inf => .fin 0
    | .ninf => .fin 0
    | .nan => .nan
  | .inf, w =>
    match w with
    | .fin r => if r < 0 then .ninf else .inf
    | .inf => .nan
    | .ninf => .nan
    | .nan => .nan
  | .ninf, w =>
    match w with
    | .fin r => if r < 0 then .inf else .ninf
    | .inf => .nan
    | .ninf => .nan
    | .nan => .nan

def FV.abs : FV → FV
  | .fin q => .fin |q|
  | .inf => .inf
  | .ninf => .inf
  | .nan => .nan

/-- IEEE `<=` (false whenever an operand is NaN). -/
def FV.le : FV → FV → Bool
  | .nan, _ => false
  | _, .nan => false
  | .fin q, .fin r => q ≤ r
  | .fin _, .inf => true
  | .fin _, .ninf => false
  | .inf, .inf => true
  | .inf, _ => false
  | .ninf, _ => true

/-- IEEE `<` (false whenever an operand is NaN). -/
def FV.lt : FV → FV → Bool
  | .nan, _ => false
  | _, .nan => false
  | .fin q, .fin r => q < r
  | .fin _, .inf => true
  | .fin _, .ninf => false
  | .inf, _ => false
  | .ninf, .ninf => false
  | .ninf, _ => true

/-- `f32::sqrt` over `FV`, exact on perfect rational squares (every concrete
evaluation below takes square roots of perfect squares only). -/
def sqrtF : FV → FV
  | .fin q => if q < 0 then .nan else .fin (sqrtQ q)
  | .inf => .inf
  | .ninf => .nan
  | .nan => .nan

structure V3F where
  x : FV
  y : FV
  z : FV
deriving DecidableEq

def addF (a b : V3F) : V3F := ⟨FV.add a.x b.x, FV.add a.y b.y, FV.add a.z b.z⟩

def negF (a : V3F) : V3F := ⟨FV.neg a.x, FV.neg a.y, FV.neg a.z⟩

def subF (a b : V3F) : V3F := ⟨FV.sub a.x b.x, FV.sub a.y b.y, FV.sub a.z b.z⟩

def smulF (a : V3F) (s : FV) : V3F := ⟨FV.mul a.x s, FV.mul a.y s, FV.mul a.z s⟩

def dotF (a b : V3F) : FV :=
  FV.add (FV.add (FV.mul a.x b.x) (FV.mul a.y b.y)) (FV.mul a.z b.z)

def crossF (a b : V3F) : V3F :=
  ⟨FV.sub (FV.mul a.y b.z) (FV.mul a.z b.y),
   FV.sub (FV.mul a.z b.x) (FV.mul a.x b.z),
   FV.sub (FV.mul a.x b.y) (FV.mul a.y b.x)⟩

/-- `cgmath` `normalize` over `FV`: `self * (1 / sqrt(dot self self))`. -/
def normalizeF (v : V3F) : V3F :=
  smulF v (FV.div (.fin 1) (sqrtF (dotF v v)))

def zero3F : V3F := ⟨.fin 0, .fin 0, .fin 0⟩

def nan3F : V3F := ⟨.nan, .nan, .nan⟩

def unitZF : V3F := ⟨.fin 0, .fin 0, .fin 1⟩

def unitYF : V3F := ⟨.fin 0, .fin 1, .fin 0⟩

/-- `ModelVertex` over `FV`. -/
structure MVF where
  position : V3F
  tex_coords : FV × FV
  normal : V3F
  tangent : V3F
  bitangent : V3F
deriving DecidableEq

/-- Per-triangle tangent and bitangent of resources.rs `calculate_tbs`,
IEEE model. -/
def tbTriangleF (v0 v1 v2 : MVF) : V3F × V3F :=
  let delta_pos_0_1 := subF v1.position v0.position
  let delta_pos_0_2 := subF v2.position v0.position
  let duv1 : FV × FV := (FV.sub v1.tex_coords.1 v0.tex_coords.1,
                         FV.sub v1.tex_coords.2 v0.tex_coords.2)
  let duv2 : FV × FV := (FV.sub v2.tex_coords.1 v0.tex_coords.1,
                         FV.sub v2.tex_coords.2 v0.tex_coords.2)
  let det_denom := FV.sub (FV.mul duv1.1 duv2.2) (FV.mul duv1.2 duv2.1)
  if FV.le (FV.abs det_denom) (.fin (1 / 10000)) then
    let normal := v0.normal
    let arb := if FV.lt (FV.abs normal.z) (.fin (999 / 1000)) then unitZF else unitYF
    let tangent := normalizeF (crossF arb normal)
    (tangent, crossF normal tangent)
  else
    let r := FV.div (.fin 1) det_denom
    (smulF (subF (smulF delta_pos_0_1 duv2.2) (smulF delta_pos_0_2 duv1.2)) r,
     smulF (subF (smulF delta_pos_0_2 duv1.1) (smulF delta_pos_0_1 duv2.1)) r)

def accTF (vs : List MVF) (i : ℕ) (t : V3F) : List MVF :=
  match vs.get? i with
  | some v => vs.set i { v with tangent := addF t v.tangent }
  | none => vs

def accBF (vs : List MVF) (i : ℕ) (b : V3F) : List MVF :=
  match vs.get? i with
  | some v => vs.set i { v with bitangent := addF b v.bitangent }
  | none => vs

def tbLoopF : List ℕ → List MVF → Option (List MVF)
  | [], vs => some vs
  | i0 :: i1 :: i2 :: rest, vs =>
    match vs.get? i0, vs.get? i1, vs.get? i2 with
    | some v0, some v1, some v2 =>
      let tb := tbTriangleF v0 v1 v2
      let vs := accTF vs i0 tb.1
      let vs := accTF vs i1 tb.1
      let vs := accTF vs i2 tb.1
      let vs := accBF vs i0 tb.2
      let vs := accBF vs i1 tb.2
      let vs := accBF vs i2 tb.2
      tbLoopF rest vs
    | _, _, _ => none
  | _ :: _, _ => none

/-- The finalization pass over `FV` (model.rs lines 300-308, resources.rs
lines 337-344). -/
def finalizeVertF (v : MVF) : MVF :=
  let vn := v.normal
  let vt := v.tangent
  let tangent_gs := normalizeF (subF vt (smulF vn (dotF vn vt)))
  { v with tangent := tangent_gs
           bitangent := normalizeF (crossF tangent_gs (negF vn)) }

/-- resources.rs `calculate_tbs`, IEEE model. -/
def calculate_tbsF (indices : List ℕ) (model_verts : List MVF) :
    Option (List MVF) :=
  (tbLoopF indices model_verts).map (List.map finalizeVertF)

/-! ## Specification-side measurement functions

These are not translations of source code; they are the vocabulary in which
the claims are stated: the list of face-vertex key triples a file references,
the first-occurrence ordering of those keys, and positions within it. -/

/-- The face-vertex key triples contributed by one line, mirroring the branch
structure of the `parse_obj` loop: comment lines contribute nothing, lines
starting with `f` contribute their `faceTriples`, all other lines nothing. -/
def keysOfLine (line : List Char) : List (ℕ × ℕ × ℕ) :=
  if startsWithL line "#".data then []
  else if startsWithL line "f".data then faceTriples line
  else []

/-- All face-vertex key triples of an enumerated line list, in mention
order. -/
def keysOfLines : List (ℕ × List Char) → List (ℕ × ℕ × ℕ)
  | [] => []
  | (_, line) :: rest => keysOfLine line ++ keysOfLines rest

/-- All face-vertex key triples referenced by a geometry file, in mention
order. -/
def objKeys (content : String) : List (ℕ × ℕ × ℕ) :=
  keysOfLines ((linesOf content.data).enum)

/-- Fold step collecting keys in order of first occurrence. -/
def occStep (acc : List (ℕ × ℕ × ℕ)) (k : ℕ × ℕ × ℕ) : List (ℕ × ℕ × ℕ) :=
  if k ∈ acc then acc else acc ++ [k]

def occsFrom (acc : List (ℕ × ℕ × ℕ)) (l : List (ℕ × ℕ × ℕ)) : List (ℕ × ℕ × ℕ) :=
  l.foldl occStep acc

/-- The distinct keys of `l`, in order of first occurrence. -/
def firstOccs (l : List (ℕ × ℕ × ℕ)) : List (ℕ × ℕ × ℕ) :=
  occsFrom [] l

/-- Position of the first occurrence of `k` in `l`. -/
def posOf : List (ℕ × ℕ × ℕ) → (ℕ × ℕ × ℕ) → Option ℕ
  | [], _ => none
  | a :: l, k => if a = k then some 0 else (posOf l k).map (· + 1)

/-- Position of `k` in the first-occurrence ordering (0 for absent keys; the
theorems only apply it to present keys). -/
def pval (occs : List (ℕ × ℕ × ℕ)) (k : ℕ × ℕ × ℕ) : ℕ :=
  (posOf occs k).getD 0

/-- Invariant tying the loop state to the list `κ` of face-vertex keys
processed so far: the hash map holds exactly the first-occurrence positions,
the vertex array has one slot per distinct key, and the index buffer is the
mention list mapped through first-occurrence positions (with the `u32`
narrowing cast). -/
def ObjInv (st : OBJState) (κ : List (ℕ × ℕ × ℕ)) : Prop :=
  (∀ k, lookupA st.fmap k = posOf (firstOccs κ) k) ∧
  st.model_verts.length = (firstOccs κ).length ∧
  st.indices = κ.map (fun k => pval (firstOccs κ) k % 4294967296)

/-! ## Concrete inputs and outputs used by witnesses and counterexamples -/

/-- A geometry file whose face line mentions four face-vertices over three
distinct keys (the first key repeats). -/
def c1src : String := "# c\nv 0 0 0\nv 1 0 0\nv 0 1 0\nf 1/1/1 2/2/2 3/3/3 1/1/1"

def c1mv (p : V3) : ModelVertex :=
  { position := p, tex_coords := (0, 0), normal := ⟨0, 0, 0⟩
    tangent := ⟨0, 0, 0⟩, bitangent := ⟨0, 0, 0⟩ }

/-- The parse result of `c1src`. -/
def c1out : ParsedOBJ :=
  { model_verts := [c1mv ⟨0, 0, 0⟩, c1mv ⟨1, 0, 0⟩, c1mv ⟨0, 1, 0⟩]
    raw_verts := [⟨0, 0, 0⟩, ⟨1, 0, 0⟩, ⟨0, 1, 0⟩]
    raw_uvs := []
    raw_normals := []
    indices := [0, 1, 2, 0]
    material := none
    material_lib := none }

/-- A geometry file with a two-face-vertex face line (`f 1 2`). -/
def c4src : String := "v 0 0 0\nv 1 0 0\nf 1 2"

/-- The parse result of `c4src`: accepted, two indices emitted. -/
def c4out : ParsedOBJ :=
  { model_verts := [c1mv ⟨0, 0, 0⟩, c1mv ⟨1, 0, 0⟩]
    raw_verts := [⟨0, 0, 0⟩, ⟨1, 0, 0⟩]
    raw_uvs := []
    raw_normals := []
    indices := [0, 1]
    material := none
    material_lib := none }

/-- A geometry file whose face line mentions `5//2` (absent UV) and `5/1/2`
(UV index 1), with a nonempty texture-coordinate array. -/
def c5src : String :=
  "v 0 0 0\nv 0 0 0\nv 0 0 0\nv 0 0 0\nv 2 3 4\nvt 0.5 0.5\nvn 0 0 1\nf 5//2 5/1/2"

/-- The parse result of `c5src`: the two tokens collide on the key
`(5, 1, 2)`, producing a single vertex whose texture coordinate is the real
`vt` record, not the `(0,0)` default. -/
def c5out : ParsedOBJ :=
  { model_verts := [{ position := ⟨2, 3, 4⟩, tex_coords := (1/2, 1/2)
                      normal := ⟨0, 0, 0⟩, tangent := ⟨0, 0, 0⟩
                      bitangent := ⟨0, 0, 0⟩ }]
    raw_verts := [⟨0, 0, 0⟩, ⟨0, 0, 0⟩, ⟨0, 0, 0⟩, ⟨0, 0, 0⟩, ⟨2, 3, 4⟩]
    raw_uvs := [(1/2, 1/2)]
    raw_normals := [⟨0, 0, 1⟩]
    indices := [0, 0]
    material := none
    material_lib := none }

/-- A triangle mesh whose every vertex carries the nonzero, non-unit normal
`(2,0,0)`; UVs are non-degenerate. -/
def c2verts : List ModelVertex :=
  [{ position := ⟨0, 0, 0⟩, tex_coords := (0, 0), normal := ⟨2, 0, 0⟩
     tangent := ⟨0, 0, 0⟩, bitangent := ⟨0, 0, 0⟩ },
   { position := ⟨1, 0, 0⟩, tex_coords := (1, 0), normal := ⟨2, 0, 0⟩
     tangent := ⟨0, 0, 0⟩, bitangent := ⟨0, 0, 0⟩ },
   { position := ⟨0, 1, 0⟩, tex_coords := (0, 1), normal := ⟨2, 0, 0⟩
     tangent := ⟨0, 0, 0⟩, bitangent := ⟨0, 0, 0⟩ }]

def c2outV (p : V3) (uv : ℚ × ℚ) : ModelVertex :=
  { position := p, tex_coords := uv, normal := ⟨2, 0, 0⟩
    tangent := ⟨-1, 0, 0⟩, bitangent := ⟨0, 0, 0⟩ }

/-- `calculate_tbs` output on `c2verts`. -/
def c2outs : List ModelVertex :=
  [c2outV ⟨0, 0, 0⟩ (0, 0), c2outV ⟨1, 0, 0⟩ (1, 0), c2outV ⟨0, 1, 0⟩ (0, 1)]

/-- Witness vertex for the amended C2: unit normal, accumulated tangent not
parallel to it. -/
def c2wv : ModelVertex :=
  { position := ⟨0, 0, 0⟩, tex_coords := (0, 0), normal := ⟨0, 0, 1⟩
    tangent := ⟨1, 0, 0⟩, bitangent := ⟨0, 0, 0⟩ }

/-- Degenerate-UV triangle (all UVs `(0,0)`) whose vertices carry the zero
normal — exactly what `parse_obj` produces for a geometry file without `vn`
records. -/
def c7v0 : MVF := ⟨zero3F, (.fin 0, .fin 0), zero3F, zero3F, zero3F⟩

def c7v1 : MVF := ⟨⟨.fin 1, .fin 0, .fin 0⟩, (.fin 0, .fin 0), zero3F, zero3F, zero3F⟩

def c7v2 : MVF := ⟨⟨.fin 0, .fin 1, .fin 0⟩, (.fin 0, .fin 0), zero3F, zero3F, zero3F⟩

/-- A single vertex referenced by zero triangles (accumulators still zero),
with unit normal. -/
def c8v : MVF := ⟨zero3F, (.fin 0, .fin 0), unitZF, zero3F, zero3F⟩

/-- `calculate_tbsF` output on `[c8v]` with no triangles. -/
def c8out : MVF := ⟨zero3F, (.fin 0, .fin 0), unitZF, nan3F, nan3F⟩

def c9srcUpper : String := "newmtl red\nNi 1.45"

def c9srcLower : String := "newmtl red\nni 1.45"

def c10src : String := "newmtl red\nKa x y z"

def c10redder : String := "newmtl redder\nKd 1 0 0"

/-- Witness triangle for the amended C7: identical UVs, unit normal
`(0,0,1)` (so the fallback picks unit-Y). -/
def c7w0 : ModelVertex :=
  { position := ⟨0, 0, 0⟩, tex_coords := (0, 0), normal := ⟨0, 0, 1⟩
    tangent := ⟨0, 0, 0⟩, bitangent := ⟨0, 0, 0⟩ }

def c7w1 : ModelVertex :=
  { position := ⟨1, 0, 0⟩, tex_coords := (0, 0), normal := ⟨0, 0, 1⟩
    tangent := ⟨0, 0, 0⟩, bitangent := ⟨0, 0, 0⟩ }

def c7w2 : ModelVertex :=
  { position := ⟨0, 1, 0⟩, tex_coords := (0, 0), normal := ⟨0, 0, 1⟩
    tangent := ⟨0, 0, 0⟩, bitangent := ⟨0, 0, 0⟩ }

/-! ## Lemmas: first-occurrence positions -/

theorem posOf_eq_none {l : List (ℕ × ℕ × ℕ)} {k : ℕ × ℕ × ℕ} :
    posOf l k = none ↔ k ∉ l := by
  induction l with
  | nil => simp [posOf]
  | cons a t ih =>
    by_cases h : a = k
    · simp [posOf, h]
    · simp [posOf, h, Option.map_eq_none', ih, Ne.symm h]

theorem posOf_lt {l : List (ℕ × ℕ × ℕ)} {k : ℕ × ℕ × ℕ} {i : ℕ}
    (h : posOf l k = some i) : i < l.length := by
  induction l generalizing i with
  | nil => simp [posOf] at h
  | cons a t ih =>
    by_cases ha : a = k
    · simp only [posOf, if_pos ha, Option.some.injEq] at h
      subst h
      simp
    · simp only [posOf, if_neg ha, Option.map_eq_some'] at h
      obtain ⟨j, hj, rfl⟩ := h
      have := ih hj
      simp only [List.length_cons]
      omega

theorem posOf_get {l : List (ℕ × ℕ × ℕ)} {k : ℕ × ℕ × ℕ} {i : ℕ}
    (h : posOf l k = some i) : l.get? i = some k := by
  induction l generalizing i with
  | nil => simp [posOf] at h
  | cons a t ih =>
    by_cases ha : a = k
    · simp [posOf, ha] at h
      subst h
      simp [ha]
    · simp [posOf, ha] at h
      obtain ⟨j, hj, rfl⟩ := h
      simpa using ih hj

theorem posOf_append_of_mem {l : List (ℕ × ℕ × ℕ)} (t : List (ℕ × ℕ × ℕ))
    {k : ℕ × ℕ × ℕ} (h : k ∈ l) : posOf (l ++ t) k = posOf l k := by
  induction l with
  | nil => simp at h
  | cons a r ih =>
    by_cases ha : a = k
    · simp [posOf, ha]
    · have hr : k ∈ r := by
        rcases List.mem_cons.mp h with h1 | h1
        · exact absurd h1.symm ha
        · exact h1
      simp [posOf, ha, ih hr]

theorem posOf_append_singleton_self {l : List (ℕ × ℕ × ℕ)} {k : ℕ × ℕ × ℕ}
    (h : k ∉ l) : posOf (l ++ [k]) k = some l.length := by
  induction l with
  | nil => simp [posOf]
  | cons a r ih =>
    have ha : a ≠ k := by
      intro hak
      exact h (hak ▸ List.mem_cons_self a r)
    have hr : k ∉ r := fun hk => h (List.mem_cons_of_mem a hk)
    simp [posOf, ha, ih hr]

theorem posOf_append_singleton_other {l : List (ℕ × ℕ × ℕ)} {k k' : ℕ × ℕ × ℕ}
    (h : k' ∉ l) (hne : k' ≠ k) : posOf (l ++ [k]) k' = none := by
  induction l with
  | nil =>
    have hkk : k ≠ k' := Ne.symm hne
    simp [posOf, hkk]
  | cons a r ih =>
    have ha : a ≠ k' := by
      intro hak
      exact h (hak ▸ List.mem_cons_self a r)
    have hr : k' ∉ r := fun hk => h (List.mem_cons_of_mem a hk)
    simp [posOf, ha, ih hr]

/-! ## Lemmas: first-occurrence lists -/

theorem occsFrom_cons (acc : List (ℕ × ℕ × ℕ)) (k : ℕ × ℕ × ℕ)
    (l : List (ℕ × ℕ × ℕ)) :
    occsFrom acc (k :: l) = occsFrom (occStep acc k) l := rfl

theorem occsFrom_append (acc l1 l2 : List (ℕ × ℕ × ℕ)) :
    occsFrom acc (l1 ++ l2) = occsFrom (occsFrom acc l1) l2 :=
  List.foldl_append ..

theorem occsFrom_singleton (acc : List (ℕ × ℕ × ℕ)) (k : ℕ × ℕ × ℕ) :
    occsFrom acc [k] = occStep acc k := rfl

theorem mem_occsFrom {acc l : List (ℕ × ℕ × ℕ)} {k : ℕ × ℕ × ℕ} :
    k ∈ occsFrom acc l ↔ k ∈ acc ∨ k ∈ l := by
  induction l generalizing acc with
  | nil => simp [occsFrom]
  | cons a t ih =>
    rw [occsFrom_cons, ih]
    unfold occStep
    by_cases ha : a ∈ acc
    · simp only [if_pos ha]
      constructor
      · rintro (h | h)
        · exact Or.inl h
        · exact Or.inr (List.mem_cons_of_mem a h)
      · rintro (h | h)
        · exact Or.inl h
        · rcases List.mem_cons.mp h with rfl | h
          · exact Or.inl ha
          · exact Or.inr h
    · simp only [if_neg ha, List.mem_append, List.mem_singleton, List.mem_cons]
      tauto

theorem occsFrom_isPrefixAppend (acc l : List (ℕ × ℕ × ℕ)) :
    ∃ t, occsFrom acc l = acc ++ t := by
  induction l generalizing acc with
  | nil => exact ⟨[], by simp [occsFrom]⟩
  | cons a r ih =>
    rw [occsFrom_cons]
    unfold occStep
    by_cases ha : a ∈ acc
    · simpa [ha] using ih acc
    · rw [if_neg ha]
      obtain ⟨t, ht⟩ := ih (acc ++ [a])
      exact ⟨[a] ++ t, by simpa [List.append_assoc] using ht⟩

theorem nodup_occsFrom {acc : List (ℕ × ℕ × ℕ)} (l : List (ℕ × ℕ × ℕ))
    (h : acc.Nodup) : (occsFrom acc l).Nodup := by
  induction l generalizing acc with
  | nil => exact h
  | cons a r ih =>
    rw [occsFrom_cons]
    unfold occStep
    by_cases ha : a ∈ acc
    · simpa [ha] using ih h
    · rw [if_neg ha]
      refine ih ?_
      simpa [List.nodup_append] using ⟨h, ha⟩

theorem toFinset_occsFrom (acc l : List (ℕ × ℕ × ℕ)) :
    (occsFrom acc l).toFinset = acc.toFinset ∪ l.toFinset := by
  induction l generalizing acc with
  | nil => simp [occsFrom]
  | cons a r ih =>
    rw [occsFrom_cons]
    unfold occStep
    by_cases ha : a ∈ acc
    · rw [if_pos ha, ih]
      ext b
      simp only [Finset.mem_union, List.mem_toFinset, List.mem_cons]
      constructor
      · rintro (h | h)
        · exact Or.inl h
        · exact Or.inr (Or.inr h)
      · rintro (h | rfl | h)
        · exact Or.inl h
        · exact Or.inl ha
        · exact Or.inr h
    · rw [if_neg ha, ih]
      ext b
      simp only [Finset.mem_union, List.mem_toFinset, List.mem_append,
        List.mem_singleton, List.mem_cons]
      tauto

theorem length_firstOccs (l : List (ℕ × ℕ × ℕ)) :
    (firstOccs l).length = l.toFinset.card := by
  have hnd : (firstOccs l).Nodup := nodup_occsFrom l List.nodup_nil
  have hfs : (firstOccs l).toFinset = l.toFinset := by
    simpa using toFinset_occsFrom [] l
  calc (firstOccs l).length = (firstOccs l).toFinset.card := by
        rw [List.card_toFinset, List.dedup_eq_self.mpr hnd]
    _ = l.toFinset.card := by rw [hfs]

theorem mem_firstOccs {l : List (ℕ × ℕ × ℕ)} {k : ℕ × ℕ × ℕ} :
    k ∈ firstOccs l ↔ k ∈ l := by
  unfold firstOccs
  rw [mem_occsFrom]
  simp

theorem pval_stable {κ τ : List (ℕ × ℕ × ℕ)} {k : ℕ × ℕ × ℕ} (h : k ∈ κ) :
    posOf (firstOccs (κ ++ τ)) k = posOf (firstOccs κ) k := by
  unfold firstOccs
  rw [occsFrom_append]
  obtain ⟨t, ht⟩ := occsFrom_isPrefixAppend (occsFrom [] κ) τ
  rw [ht]
  exact posOf_append_of_mem t (mem_occsFrom.mpr (Or.inr h))

/-! ## The deduplication invariant of the parse loop -/

theorem ObjInv_init : ObjInv initOBJState [] :=
  ⟨fun _ => rfl, rfl, rfl⟩

theorem pushKey_inv {st st2 : OBJState} {k : ℕ × ℕ × ℕ} {κ : List (ℕ × ℕ × ℕ)}
    (hInv : ObjInv st κ) (h : pushKey st k = some st2) : ObjInv st2 (κ ++ [k]) := by
  obtain ⟨hmap, hlen, hind⟩ := hInv
  unfold pushKey at h
  cases hm : lookupA st.fmap k with
  | some i =>
    rw [hm] at h
    obtain rfl : { st with indices := st.indices ++ [i % 4294967296] } = st2 :=
      Option.some.inj h
    have hkin : k ∈ firstOccs κ := by
      by_contra hno
      rw [hmap k, posOf_eq_none.mpr hno] at hm
      exact Option.noConfusion hm
    have hkκ : k ∈ κ := mem_firstOccs.mp hkin
    have hocc : firstOccs (κ ++ [k]) = firstOccs κ := by
      unfold firstOccs
      rw [occsFrom_append, occsFrom_singleton]
      unfold occStep
      rw [if_pos (mem_occsFrom.mpr (Or.inr hkκ))]
    refine ⟨?_, ?_, ?_⟩
    · intro k2
      simpa [hocc] using hmap k2
    · simpa [hocc] using hlen
    · show st.indices ++ [i % 4294967296] = _
      rw [hocc, List.map_append, ← hind]
      have hpos : posOf (firstOccs κ) k = some i := by rw [← hmap k]; exact hm
      have hpv : pval (firstOccs κ) k = i := by simp only [pval, hpos]; rfl
      simp [hpv]
  | none =>
    rw [hm] at h
    cases hv : mkVertex st k with
    | none => rw [hv] at h; exact Option.noConfusion h
    | some v =>
      rw [hv] at h
      obtain rfl :
          { st with
            model_verts := st.model_verts ++ [v]
            fmap := (k, st.model_verts.length) :: st.fmap
            indices := st.indices ++ [st.model_verts.length % 4294967296] } = st2 :=
        Option.some.inj h
      have hkout : k ∉ firstOccs κ := by
        rw [hmap k] at hm
        exact posOf_eq_none.mp hm
      have hocc : firstOccs (κ ++ [k]) = firstOccs κ ++ [k] := by
        have hkout2 : k ∉ occsFrom [] κ := hkout
        unfold firstOccs
        rw [occsFrom_append, occsFrom_singleton]
        unfold occStep
        rw [if_neg hkout2]
      refine ⟨?_, ?_, ?_⟩
      · intro k2
        show lookupA ((k, st.model_verts.length) :: st.fmap) k2 = _
        rw [hocc]
        by_cases hk2 : k = k2
        · subst hk2
          rw [lookupA, if_pos rfl, posOf_append_singleton_self hkout, hlen]
        · rw [lookupA, if_neg hk2, hmap k2]
          by_cases hin : k2 ∈ firstOccs κ
          · rw [posOf_append_of_mem [k] hin]
          · rw [posOf_eq_none.mpr hin,
              posOf_append_singleton_other hin (fun hh => hk2 hh.symm)]
      · show (st.model_verts ++ [v]).length = _
        rw [hocc]
        simp [hlen]
      · show st.indices ++ [st.model_verts.length % 4294967296] = _
        rw [hocc, List.map_append, hind]
        have hcongr :
            κ.map (fun k2 => pval (firstOccs κ) k2 % 4294967296) =
              κ.map (fun k2 => pval (firstOccs κ ++ [k]) k2 % 4294967296) := by
          refine List.map_congr_left (fun a ha => ?_)
          have ha2 : a ∈ firstOccs κ := mem_firstOccs.mpr ha
          simp only [pval, posOf_append_of_mem [k] ha2]
        rw [← hcongr]
        have hlast : pval (firstOccs κ ++ [k]) k = st.model_verts.length := by
          simp only [pval, posOf_append_singleton_self hkout, hlen]
          rfl
        simp [hlast]

theorem processFace_inv {ks : List (ℕ × ℕ × ℕ)} {st st2 : OBJState}
    {κ : List (ℕ × ℕ × ℕ)} (hInv : ObjInv st κ)
    (h : processFace st ks = some st2) : ObjInv st2 (κ ++ ks) := by
  induction ks generalizing st κ with
  | nil =>
    obtain rfl : st = st2 := Option.some.inj h
    simpa using hInv
  | cons k ks ih =>
    rw [processFace] at h
    cases hp : pushKey st k with
    | none => rw [hp] at h; exact Option.noConfusion h
    | some stm =>
      rw [hp] at h
      have := ih (pushKey_inv hInv hp) h
      simpa [List.append_assoc] using this

theorem objLoop_inv (filepath content : String) (lns : List (ℕ × List Char)) :
    ∀ (st : OBJState) (κ : List (ℕ × ℕ × ℕ)) (P : ParsedOBJ),
      ObjInv st κ → objLoop filepath content lns st = OBJResult.ok P →
      P.model_verts.length = (firstOccs (κ ++ keysOfLines lns)).length ∧
      P.indices = (κ ++ keysOfLines lns).map
        (fun k => pval (firstOccs (κ ++ keysOfLines lns)) k % 4294967296) := by
  induction lns with
  | nil =>
    intro st κ P hInv h
    simp only [objLoop, OBJResult.ok.injEq] at h
    obtain ⟨_, hlen, hind⟩ := hInv
    subst h
    simp only [keysOfLines, List.append_nil]
    exact ⟨hlen, hind⟩
  | cons hd rest ih =>
    obtain ⟨n, line⟩ := hd
    intro st κ P hInv h
    simp only [objLoop] at h
    simp only [keysOfLines]
    by_cases h1 : startsWithL line "#".data
    · simp only [h1, if_pos] at h
      simp only [keysOfLine, h1, if_pos, List.nil_append]
      exact ih st κ P hInv h
    · simp only [h1] at h
      rw [if_neg (by simp [h1])] at h
      by_cases h2 : startsWithL line "f".data
      · simp only [h2, if_pos, parse_face_line] at h
        cases hpf : processFace st (faceTriples line) with
        | none => rw [hpf] at h; exact absurd h (by simp)
        | some st2 =>
          rw [hpf] at h
          have hInv2 := processFace_inv hInv hpf
          have := ih st2 (κ ++ faceTriples line) P hInv2 h
          simpa [keysOfLine, h1, h2, List.append_assoc] using this
      · rw [if_neg (by simp [h2])] at h
        have hkl : keysOfLine line = [] := by simp [keysOfLine, h1, h2]
        rw [hkl, List.nil_append]
        by_cases h3 : startsWithL line "v".data
        · simp only [h3, if_pos] at h
          cases hpv : parse_vector_line line with
          | none => rw [hpv] at h; exact absurd h (by simp)
          | some linevec =>
            rw [hpv] at h
            by_cases h4 : startsWithL line "vn".data
            · simp only [h4, if_pos] at h
              split at h
              · refine ih _ κ P ?_ h
                exact hInv
              · exact absurd h (by simp)
            · simp only [h4] at h
              rw [if_neg (by simp [h4])] at h
              by_cases h5 : startsWithL line "vt".data
              · simp only [h5, if_pos] at h
                split at h
                · refine ih _ κ P ?_ h
                  exact hInv
                · exact absurd h (by simp)
              · rw [if_neg (by simp [h5])] at h
                split at h
                · refine ih _ κ P ?_ h
                  exact hInv
                · exact absurd h (by simp)
        · rw [if_neg (by simp [h3])] at h
          by_cases h6 : startsWithL line "mtllib".data
          · simp only [h6, if_pos] at h
            refine ih _ κ P ?_ h
            exact hInv
          · rw [if_neg (by simp [h6])] at h
            by_cases h7 : startsWithL line "usemtl".data
            · simp only [h7, if_pos] at h
              refine ih _ κ P ?_ h
              exact hInv
            · rw [if_neg (by simp [h7])] at h
              exact ih st κ P hInv h

theorem parse_obj_inv {filepath content : String} {P : ParsedOBJ}
    (h : parse_obj filepath content = OBJResult.ok P) :
    P.model_verts.length = (firstOccs (objKeys content)).length ∧
    P.indices = (objKeys content).map
      (fun k => pval (firstOccs (objKeys content)) k % 4294967296) := by
  have := objLoop_inv filepath content ((linesOf content.data).enum)
    initOBJState [] P ObjInv_init h
  simpa [objKeys] using this

theorem pval_lt_of_mem {κ : List (ℕ × ℕ × ℕ)} {k : ℕ × ℕ × ℕ} (hk : k ∈ κ) :
    pval (firstOccs κ) k < (firstOccs κ).length := by
  have hkf : k ∈ firstOccs κ := mem_firstOccs.mpr hk
  cases hpos : posOf (firstOccs κ) k with
  | none => exact absurd (posOf_eq_none.mp hpos) (by simpa using hkf)
  | some i =>
    have := posOf_lt hpos
    simpa [pval, hpos] using this

/-! ## Claim C1 and C3 -/

/-- C1: for every successfully parsed geometry file, the number of
`ModelVertex` records emitted by `parse_obj` equals the number of distinct
(position-index, uv-index, normal-index) triples referenced by its face
lines — not the number of face-vertex mentions; each index-buffer entry is
the position of its mention's key in first-occurrence order, so the first
occurrence of a key appends a new vertex at the end of the vertex array and
every later occurrence of the same key yields the existing slot index (two
mentions receive equal indices exactly when their key triples are equal).
The hypothesis `hcap` keeps the mention count below `2^32`, where the
`usize`-to-`u32` cast of the source cannot wrap. -/
theorem c1_dedup (filepath content : String) (P : ParsedOBJ)
    (hok : parse_obj filepath content = OBJResult.ok P)
    (hcap : (objKeys content).length < 4294967296) :
    P.model_verts.length = (objKeys content).toFinset.card ∧
    P.indices = (objKeys content).map (fun k => pval (firstOccs (objKeys content)) k) ∧
    ∀ j j' : ℕ, ∀ k k' : ℕ × ℕ × ℕ,
      (objKeys content).get? j = some k → (objKeys content).get? j' = some k' →
      (P.indices.get? j = P.indices.get? j' ↔ k = k') := by
  obtain ⟨hlen, hind⟩ := parse_obj_inv hok
  have hmodeq : ∀ k ∈ objKeys content,
      pval (firstOccs (objKeys content)) k % 4294967296 =
        pval (firstOccs (objKeys content)) k := by
    intro k hk
    apply Nat.mod_eq_of_lt
    calc pval (firstOccs (objKeys content)) k
        < (firstOccs (objKeys content)).length := pval_lt_of_mem hk
      _ = (objKeys content).toFinset.card := length_firstOccs _
      _ ≤ (objKeys content).length := List.toFinset_card_le _
      _ < 4294967296 := hcap
  have hind2 : P.indices = (objKeys content).map
      (fun k => pval (firstOccs (objKeys content)) k) := by
    rw [hind]
    exact List.map_congr_left hmodeq
  refine ⟨by rw [hlen, length_firstOccs], hind2, ?_⟩
  intro j j' k k' hj hj'
  have hkmem : k ∈ objKeys content := List.get?_mem hj
  have hkmem' : k' ∈ objKeys content := List.get?_mem hj'
  rw [hind2, List.get?_map, List.get?_map, hj, hj']
  simp only [Option.map_some', Option.some.injEq]
  constructor
  · intro he
    cases hp : posOf (firstOccs (objKeys content)) k with
    | none => exact absurd (posOf_eq_none.mp hp) (by simp [mem_firstOccs, hkmem])
    | some i =>
      cases hp' : posOf (firstOccs (objKeys content)) k' with
      | none => exact absurd (posOf_eq_none.mp hp') (by simp [mem_firstOccs, hkmem'])
      | some i' =>
        have hii : i = i' := by simpa [pval, hp, hp'] using he
        have g1 := posOf_get hp
        have g2 := posOf_get hp'
        rw [← hii] at g2
        rw [g1] at g2
        exact Option.some.inj g2
  · intro he
    subst he
    rfl

/-- Witness for C1: a file with four face-vertex mentions over three
distinct keys yields three vertices and the index buffer `[0, 1, 2, 0]`. -/
theorem c1_dedup_witness :
    c1out.model_verts.length = (objKeys c1src).toFinset.card ∧
    c1out.indices = (objKeys c1src).map (fun k => pval (firstOccs (objKeys c1src)) k) ∧
    ∀ j j' : ℕ, ∀ k k' : ℕ × ℕ × ℕ,
      (objKeys c1src).get? j = some k → (objKeys c1src).get? j' = some k' →
      (c1out.indices.get? j = c1out.indices.get? j' ↔ k = k') :=
  c1_dedup "cube.obj" c1src c1out (by decide) (by decide)

/-- C3: for every `ParsedOBJ` returned successfully by `parse_obj`, every
element of the index buffer is strictly less than the length of the
deduplicated vertex array.  (This needs no size cap: a narrowed index is
never larger than the unnarrowed slot position.) -/
theorem c3_index_bound (filepath content : String) (P : ParsedOBJ)
    (hok : parse_obj filepath content = OBJResult.ok P) :
    ∀ i ∈ P.indices, i < P.model_verts.length := by
  obtain ⟨hlen, hind⟩ := parse_obj_inv hok
  intro i hi
  rw [hind] at hi
  obtain ⟨k, hk, rfl⟩ := List.mem_map.mp hi
  calc pval (firstOccs (objKeys content)) k % 4294967296
      ≤ pval (firstOccs (objKeys content)) k := Nat.mod_le _ _
    _ < (firstOccs (objKeys content)).length := pval_lt_of_mem hk
    _ = P.model_verts.length := hlen.symm

/-- Witness for C3 at a concrete file and a concrete index-buffer entry. -/
theorem c3_index_bound_witness :
    (2 : ℕ) < c1out.model_verts.length :=
  c3_index_bound "cube.obj" c1src c1out (by decide) 2 (by decide)

/-! ## Algebra of the exact-arithmetic vectors -/

theorem dotV_comm (a b : V3) : dotV a b = dotV b a := by
  unfold dotV
  ring

theorem dotV_subV_left (a b c : V3) : dotV (subV a b) c = dotV a c - dotV b c := by
  unfold dotV subV
  ring

theorem dotV_smulV_left (a : V3) (s : ℚ) (b : V3) :
    dotV (smulV a s) b = s * dotV a b := by
  unfold dotV smulV
  ring

theorem dotV_smulV_right (a b : V3) (s : ℚ) :
    dotV a (smulV b s) = s * dotV a b := by
  unfold dotV smulV
  ring

theorem dotV_negV_right (a b : V3) : dotV a (negV b) = -dotV a b := by
  unfold dotV negV
  ring

theorem dotV_negV_negV (a b : V3) : dotV (negV a) (negV b) = dotV a b := by
  unfold dotV negV
  ring

theorem dotV_crossV_left (a b : V3) : dotV (crossV a b) a = 0 := by
  unfold dotV crossV
  ring

theorem dotV_crossV_snd (a b : V3) : dotV b (crossV a b) = 0 := by
  unfold dotV crossV
  ring

theorem lagrangeV (a b : V3) :
    dotV (crossV a b) (crossV a b) = dotV a a * dotV b b - dotV a b * dotV a b := by
  unfold dotV crossV
  ring

/-- Normalizing a vector whose squared magnitude `m` satisfies
`sq m * sq m = m` with `sq m ≠ 0` yields a vector of squared norm 1. -/
theorem normSq_normalizeV (sq : ℚ → ℚ) (w : V3)
    (hs : sq (dotV w w) * sq (dotV w w) = dotV w w)
    (hss : sq (dotV w w) ≠ 0) :
    dotV (normalizeV sq w) (normalizeV sq w) = 1 := by
  unfold normalizeV
  rw [dotV_smulV_left, dotV_smulV_right]
  set s := sq (dotV w w) with hsdef
  rw [← hs]
  field_simp

/-! ## Claim C2 -/

/-- C2 (amended): for every vertex whose normal is unit length and whose
accumulated Gram-Schmidt residual is nonzero, the finalization pass produces
a tangent exactly orthogonal to the normal and unit-length tangent and
bitangent (squared norms equal 1; `sq` is constrained to behave as a square
root exactly at the two magnitudes where the source takes one). -/
theorem c2_amended (sq : ℚ → ℚ) (v : ModelVertex)
    (hn : dotV v.normal v.normal = 1)
    (hr : dotV (residualGS v) (residualGS v) ≠ 0)
    (hs : sq (dotV (residualGS v) (residualGS v)) *
            sq (dotV (residualGS v) (residualGS v)) =
          dotV (residualGS v) (residualGS v))
    (h1 : sq 1 = 1) :
    dotV (finalizeVert sq v).tangent v.normal = 0 ∧
    dotV (finalizeVert sq v).tangent (finalizeVert sq v).tangent = 1 ∧
    dotV (finalizeVert sq v).bitangent (finalizeVert sq v).bitangent = 1 := by
  have hss : sq (dotV (residualGS v) (residualGS v)) ≠ 0 := by
    intro h0
    exact hr (by rw [← hs, h0, mul_zero])
  have hrn : dotV (residualGS v) v.normal = 0 := by
    unfold residualGS
    rw [dotV_subV_left, dotV_smulV_left, hn, mul_one, dotV_comm]
    ring
  have g1 : dotV (normalizeV sq (residualGS v)) v.normal = 0 := by
    unfold normalizeV
    rw [dotV_smulV_left, hrn, mul_zero]
  have g2 : dotV (normalizeV sq (residualGS v)) (normalizeV sq (residualGS v)) = 1 :=
    normSq_normalizeV sq (residualGS v) hs hss
  have hw : dotV (crossV (normalizeV sq (residualGS v)) (negV v.normal))
      (crossV (normalizeV sq (residualGS v)) (negV v.normal)) = 1 := by
    rw [lagrangeV, g2, dotV_negV_negV, hn, dotV_negV_right, g1]
    ring
  have g3 : dotV
      (normalizeV sq (crossV (normalizeV sq (residualGS v)) (negV v.normal)))
      (normalizeV sq (crossV (normalizeV sq (residualGS v)) (negV v.normal))) = 1 := by
    refine normSq_normalizeV sq _ ?_ ?_
    · rw [hw, h1]
      norm_num
    · rw [hw, h1]
      norm_num
  exact ⟨g1, g2, g3⟩

/-- Witness for C2 (amended): a vertex with unit normal `(0,0,1)` and
accumulated tangent `(1,0,0)`, with `sq` instantiated by `sqrtQ`. -/
theorem c2_amended_witness :
    dotV (finalizeVert sqrtQ c2wv).tangent c2wv.normal = 0 ∧
    dotV (finalizeVert sqrtQ c2wv).tangent (finalizeVert sqrtQ c2wv).tangent = 1 ∧
    dotV (finalizeVert sqrtQ c2wv).bitangent (finalizeVert sqrtQ c2wv).bitangent = 1 :=
  c2_amended sqrtQ c2wv (by decide) (by decide) (by decide) (by decide)

/-! ## Claim C2 (counterexample) and claims C4, C5, C6 -/

/-- C2 (counterexample): the claim as stated is false.  A triangle mesh whose
vertices carry the nonzero (but non-unit) normal `(2,0,0)` finalizes — via
resources.rs `calculate_tbs` — to the tangent `(-1,0,0)`, and
`dot(tangent, normal) = -2`, far outside the `1e-4` tolerance.  (Every
arithmetic operation in this evaluation is exact in `f32` as well.) -/
theorem c2_counterexample :
    calculate_tbs sqrtQ [0, 1, 2] c2verts = some c2outs ∧
    c2outV ⟨0, 0, 0⟩ (0, 0) ∈ c2outs ∧
    (c2outV ⟨0, 0, 0⟩ (0, 0)).normal ≠ ⟨0, 0, 0⟩ ∧
    ¬(|dotV (c2outV ⟨0, 0, 0⟩ (0, 0)).tangent (c2outV ⟨0, 0, 0⟩ (0, 0)).normal| ≤ 1 / 10000) := by
  decide

/-- C4 (counterexample): on a file whose face line has only two face-vertex
tokens, `parse_obj` does not return a `ParseError`: it succeeds and silently
emits the two mentions as indices `[0, 1]` (a degenerate 2-vertex face). -/
theorem c4_counterexample :
    parse_obj "m.obj" c4src = OBJResult.ok c4out ∧ c4out.indices = [0, 1] := by
  decide

/-- C4 (amended): `parse_face_line` is infallible (its error case is
unreachable — every token parse failure is replaced by `1`), so `parse_obj`
performs no face-arity validation: a face line with fewer than 3
face-vertex tokens parses successfully and its mentions are silently pushed
to the index buffer. -/
theorem c4_amended :
    (∀ line : List Char, parse_face_line line ≠ FaceRes.err) ∧
    parse_obj "m.obj" c4src = OBJResult.ok c4out ∧
    c4out.indices.length = 2 :=
  ⟨fun _ h => FaceRes.noConfusion h, by decide, by decide⟩

/-- C5 (counterexample): the claim as stated is false.  In
`v ...(5 records)... / vt 0.5 0.5 / vn 0 0 1 / f 5//2 5/1/2`, the token
`5//2` does not key distinctly from `5/1/2` (the absent-UV slot is filled
with the sentinel `1`, which is a real attribute index): the two mentions
weld into a single vertex, and that vertex resolves its texture coordinate
to the real first `vt` record `(0.5, 0.5)`, not to the `(0,0)` default. -/
theorem c5_counterexample :
    parse_obj "m.obj" c5src = OBJResult.ok c5out ∧
    c5out.model_verts.length = 1 ∧
    (∀ w ∈ c5out.model_verts, w.tex_coords ≠ (0, 0)) := by
  decide

/-- C5 (amended): a face-vertex token with an omitted UV index such as
`5//2` resolves the missing slot to the sentinel `1` (`unwrap_or(1)`), so
its deduplication key equals that of `5/1/2`; its texture coordinate is the
first real `vt` record when one exists and the `(0,0)` default only when
the texture-coordinate array is too short. -/
theorem c5_amended :
    faceTriples "f 5//2 5/1/2".data = [(5, 1, 2), (5, 1, 2)] ∧
    parse_obj "m.obj" c5src = OBJResult.ok c5out ∧
    c5out.indices = [0, 0] := by
  decide

/-- C6: on a face line that references a position index larger than the
number of positions parsed so far, `parse_obj` panics (out-of-bounds
indexing into `raw_verts`) instead of returning the `Parse` error the
specification requires. -/
theorem c6_panic_eval :
    parse_obj "m.obj" "f 1 2 3" = OBJResult.panic "index out of bounds" := by
  decide

/-! ## Claim C7 -/

/-- C7 (counterexample): the no-NaN clause of the claim is false as stated.
A triangle with all three UVs identical whose first vertex carries the zero
normal — exactly what `parse_obj` produces for a file without `vn` records —
takes the fallback branch, computes `cross(unit_z, 0) = 0`, and normalizing
the zero vector yields NaN tangent and bitangent (IEEE model). -/
theorem c7_counterexample :
    c7v0.tex_coords = c7v1.tex_coords ∧ c7v1.tex_coords = c7v2.tex_coords ∧
    (tbTriangleF c7v0 c7v1 c7v2).1 = nan3F ∧
    (tbTriangleF c7v0 c7v1 c7v2).2 = nan3F := by
  decide

/-- C7 (amended): for every triangle with `|det| ≤ 1e-4` the tangent builder
takes the degenerate fallback: the arbitrary axis is world unit-Z unless the
first vertex normal has `|z| ≥ 0.999` (then unit-Y), the tangent is
`normalize(cross(arbitrary, normal))`, and the two-output variant sets the
bitangent to `cross(normal, tangent)`; when the first vertex normal is unit
length this produces no NaN — the normalized cross product has nonzero
squared magnitude and the tangent and bitangent have squared norm 1. -/
theorem c7_amended (sq : ℚ → ℚ) (v0 v1 v2 : ModelVertex)
    (hdet : |detUV v0 v1 v2| ≤ 1 / 10000)
    (hn : dotV v0.normal v0.normal = 1)
    (hs : sq (dotV (crossV (arbOf v0.normal) v0.normal) (crossV (arbOf v0.normal) v0.normal)) *
            sq (dotV (crossV (arbOf v0.normal) v0.normal) (crossV (arbOf v0.normal) v0.normal)) =
          dotV (crossV (arbOf v0.normal) v0.normal) (crossV (arbOf v0.normal) v0.normal)) :
    tbTriangle sq v0 v1 v2 =
      (normalizeV sq (crossV (arbOf v0.normal) v0.normal),
       crossV v0.normal (normalizeV sq (crossV (arbOf v0.normal) v0.normal))) ∧
    triTangentM sq v0 v1 v2 = normalizeV sq (crossV (arbOf v0.normal) v0.normal) ∧
    dotV (crossV (arbOf v0.normal) v0.normal) (crossV (arbOf v0.normal) v0.normal) ≠ 0 ∧
    dotV (tbTriangle sq v0 v1 v2).1 (tbTriangle sq v0 v1 v2).1 = 1 ∧
    dotV (tbTriangle sq v0 v1 v2).2 (tbTriangle sq v0 v1 v2).2 = 1 := by
  have hdet2 : |((v1.tex_coords.1 - v0.tex_coords.1) * (v2.tex_coords.2 - v0.tex_coords.2) -
      (v1.tex_coords.2 - v0.tex_coords.2) * (v2.tex_coords.1 - v0.tex_coords.1))| ≤ 1 / 10000 := hdet
  have hbranch : tbTriangle sq v0 v1 v2 =
      (normalizeV sq (crossV (arbOf v0.normal) v0.normal),
       crossV v0.normal (normalizeV sq (crossV (arbOf v0.normal) v0.normal))) := by
    unfold tbTriangle
    rw [if_pos hdet2]
  have hbranchM : triTangentM sq v0 v1 v2 =
      normalizeV sq (crossV (arbOf v0.normal) v0.normal) := by
    unfold triTangentM
    rw [if_pos hdet2]
  have s0pos : ∀ n : V3, dotV n n = 1 →
      0 < dotV (crossV (arbOf n) n) (crossV (arbOf n) n) := by
    rintro ⟨a, b, c⟩ hn1
    unfold dotV at hn1
    dsimp only at hn1
    unfold arbOf
    dsimp only
    by_cases hz : |c| < 999 / 1000
    · rw [if_pos hz]
      unfold unitZ dotV crossV
      dsimp only
      have hc := abs_lt.mp hz
      nlinarith [hc.1, hc.2]
    · rw [if_neg hz]
      unfold unitY dotV crossV
      dsimp only
      have hc : 999 / 1000 ≤ |c| := le_of_not_lt hz
      have hc2 : (999 / 1000 : ℚ) * (999 / 1000) ≤ c * c := by
        have habs : |c| * |c| = c * c := abs_mul_abs_self c
        nlinarith [abs_nonneg c]
      nlinarith
  have hs0 : dotV (crossV (arbOf v0.normal) v0.normal) (crossV (arbOf v0.normal) v0.normal) ≠ 0 :=
    ne_of_gt (s0pos v0.normal hn)
  have hsq0 : sq (dotV (crossV (arbOf v0.normal) v0.normal) (crossV (arbOf v0.normal) v0.normal)) ≠ 0 := by
    intro h0
    exact hs0 (by rw [← hs, h0, mul_zero])
  have gt : dotV (normalizeV sq (crossV (arbOf v0.normal) v0.normal))
      (normalizeV sq (crossV (arbOf v0.normal) v0.normal)) = 1 :=
    normSq_normalizeV sq _ hs hsq0
  have gnt : dotV v0.normal (normalizeV sq (crossV (arbOf v0.normal) v0.normal)) = 0 := by
    unfold normalizeV
    rw [dotV_smulV_right, dotV_crossV_snd, mul_zero]
  have gb : dotV (crossV v0.normal (normalizeV sq (crossV (arbOf v0.normal) v0.normal)))
      (crossV v0.normal (normalizeV sq (crossV (arbOf v0.normal) v0.normal))) = 1 := by
    rw [lagrangeV, hn, gt, gnt]
    ring
  refine ⟨hbranch, hbranchM, hs0, ?_, ?_⟩
  · rw [hbranch]
    exact gt
  · rw [hbranch]
    exact gb

/-- Witness for C7 (amended): an all-UVs-equal triangle with unit normal
`(0,0,1)` — the fallback picks unit-Y and produces the unit tangent. -/
theorem c7_amended_witness :
    tbTriangle sqrtQ c7w0 c7w1 c7w2 =
      (normalizeV sqrtQ (crossV (arbOf c7w0.normal) c7w0.normal),
       crossV c7w0.normal (normalizeV sqrtQ (crossV (arbOf c7w0.normal) c7w0.normal))) ∧
    triTangentM sqrtQ c7w0 c7w1 c7w2 = normalizeV sqrtQ (crossV (arbOf c7w0.normal) c7w0.normal) ∧
    dotV (crossV (arbOf c7w0.normal) c7w0.normal) (crossV (arbOf c7w0.normal) c7w0.normal) ≠ 0 ∧
    dotV (tbTriangle sqrtQ c7w0 c7w1 c7w2).1 (tbTriangle sqrtQ c7w0 c7w1 c7w2).1 = 1 ∧
    dotV (tbTriangle sqrtQ c7w0 c7w1 c7w2).2 (tbTriangle sqrtQ c7w0 c7w1 c7w2).2 = 1 :=
  c7_amended sqrtQ c7w0 c7w1 c7w2 (by decide) (by decide) (by decide)

/-! ## Claim C8 -/

/-- C8 (counterexample): the claim as stated is false.  Running
`calculate_tbs` (IEEE model) on a mesh with one vertex and zero triangles
leaves the accumulated tangent at zero, and the finalization pass then
normalizes the zero vector: `0 * (1 / sqrt 0) = 0 * inf = NaN` — the
finalized tangent and bitangent are NaN vectors, not zero vectors. -/
theorem c8_counterexample :
    calculate_tbsF [] [c8v] = some [c8out] ∧
    c8out.tangent = nan3F ∧ c8out.bitangent = nan3F ∧
    c8out.tangent ≠ zero3F ∧ c8out.bitangent ≠ zero3F := by
  decide

/-- C8 (amended): the finalization pass maps every vertex with zero
accumulated tangent and finite normal components (an isolated vertex is
exactly this) to NaN tangent and bitangent — IEEE normalize of the zero
vector — rather than leaving them zero. -/
theorem c8_amended (v : MVF)
    (ht : v.tangent = zero3F)
    (hx : ∃ a : ℚ, v.normal.x = FV.fin a)
    (hy : ∃ b : ℚ, v.normal.y = FV.fin b)
    (hz : ∃ c : ℚ, v.normal.z = FV.fin c) :
    (finalizeVertF v).tangent = nan3F ∧ (finalizeVertF v).bitangent = nan3F := by
  obtain ⟨a, hA⟩ := hx
  obtain ⟨b, hB⟩ := hy
  obtain ⟨c, hC⟩ := hz
  have h0 : sqrtQ 0 = 0 := by decide
  constructor
  · show normalizeF (subF v.tangent (smulF v.normal (dotF v.normal v.tangent))) = nan3F
    rw [ht]
    simp [normalizeF, dotF, smulF, subF, zero3F, nan3F, FV.mul, FV.add, FV.neg,
      FV.sub, FV.div, sqrtF, hA, hB, hC, h0, mul_zero, add_zero, neg_zero,
      lt_self_iff_false, zero_lt_one]
  · show normalizeF (crossF
      (normalizeF (subF v.tangent (smulF v.normal (dotF v.normal v.tangent))))
      (negF v.normal)) = nan3F
    rw [ht]
    simp [normalizeF, dotF, smulF, subF, crossF, negF, zero3F, nan3F, FV.mul,
      FV.add, FV.neg, FV.sub, FV.div, sqrtF, hA, hB, hC, h0, mul_zero, add_zero,
      neg_zero, lt_self_iff_false, zero_lt_one]

/-- Witness for C8 (amended) at the concrete isolated vertex. -/
theorem c8_amended_witness :
    (finalizeVertF c8v).tangent = nan3F ∧ (finalizeVertF c8v).bitangent = nan3F :=
  c8_amended c8v (by decide) ⟨0, by decide⟩ ⟨0, by decide⟩ ⟨1, by decide⟩

/-! ## Claim C9 -/

/-- C9: the material parser does not recognize standard `Ni` lines: its
refraction-index branch matches the lowercase prefix `ni` only, so a
material segment containing `Ni 1.45` parses successfully with
`ni = none` (the line is silently ignored — no value is stored and a
malformed `Ni` line is not an error), while a lowercase `ni 1.45` line does
set the field. -/
theorem c9_eval :
    parse_mtl "m.mtl" c9srcUpper "red" = MTLResult.ok { name := some "red" } ∧
    parse_mtl "m.mtl" c9srcLower "red" =
      MTLResult.ok { name := some "red", ni := some (29 / 20) } := by
  decide

/-! ## Claim C10 -/

theorem startsWithL_append_left {s p q : List Char}
    (h : startsWithL s (p ++ q) = true) : startsWithL s p = true := by
  induction p generalizing s with
  | nil =>
    cases s with
    | nil => rfl
    | cons a as => rfl
  | cons c cs ih =>
    cases s with
    | nil => simp [startsWithL] at h
    | cons a as =>
      simp only [List.cons_append, startsWithL, Bool.and_eq_true] at h ⊢
      exact ⟨h.1, ih h.2⟩

/-- A comment line cannot be a `newmtl` line. -/
theorem hash_not_newmtl {l : List Char} (hl : startsWithL l "#".data = true)
    (p : List Char) : startsWithL l ("newmtl ".data ++ p) = false := by
  cases l with
  | nil => simp [startsWithL] at hl
  | cons a as =>
    have ha : a = '#' := by
      have := hl
      simp only [startsWithL] at this
      simpa [startsWithL] using this
    subst ha
    rfl

/-- Once a matching segment has been entered, the loop can no longer report
`MtlNotFound`. -/
theorem mtlLoop_found (filepath name : String) (lns : List (ℕ × List Char)) :
    ∀ parsed, (mtlLoop filepath name lns parsed true).isNotFound = false := by
  induction lns with
  | nil => intro parsed; rfl
  | cons hd rest ih =>
    obtain ⟨n, line⟩ := hd
    intro parsed
    simp only [mtlLoop]
    by_cases h1 : startsWithL line "#".data = true
    · rw [if_pos h1]
      exact ih parsed
    · rw [if_neg h1]
      by_cases h2 : startsWithL line "newmtl".data = true
      · rw [if_pos h2]
        by_cases h3 : startsWithL line ("newmtl ".data ++ name.data) = true
        · rw [if_pos h3]
          exact ih _
        · rw [if_neg h3]
          simp only [if_true]
          rfl
      · rw [if_neg h2]
        simp only [if_true]
        cases hpl : parse_mtl_line parsed line with
        | ok parsed2 => exact ih parsed2
        | error e => cases e <;> rfl

theorem forall_cons_of_head {α : Type} {P : α → Prop} {a : α} {l : List α}
    (ha : P a) : (∀ x ∈ l, P x) ↔ (∀ x ∈ a :: l, P x) := by
  constructor
  · intro h x hx
    rcases List.mem_cons.mp hx with rfl | hx2
    · exact ha
    · exact h x hx2
  · intro h x hx
    exact h x (List.mem_cons_of_mem a hx)

/-- With no match found yet, the loop reports `MtlNotFound` exactly when no
remaining line starts with `"newmtl " ++ name`. -/
theorem mtlLoop_notFound_iff (filepath name : String) (lns : List (ℕ × List Char)) :
    ∀ parsed, ((mtlLoop filepath name lns parsed false).isNotFound = true ↔
      ∀ p ∈ lns, startsWithL p.2 ("newmtl ".data ++ name.data) = false) := by
  have hsplit : ("newmtl ".data : List Char) = "newmtl".data ++ [' '] := rfl
  have hweak : ∀ s : List Char, startsWithL s ("newmtl ".data ++ name.data) = true →
      startsWithL s "newmtl".data = true := by
    intro s hs
    rw [hsplit, List.append_assoc] at hs
    exact startsWithL_append_left hs
  induction lns with
  | nil =>
    intro parsed
    simp [mtlLoop, MTLResult.isNotFound]
  | cons hd rest ih =>
    obtain ⟨n, line⟩ := hd
    intro parsed
    simp only [mtlLoop]
    by_cases h1 : startsWithL line "#".data = true
    · rw [if_pos h1, ih parsed]
      have hline : startsWithL line ("newmtl ".data ++ name.data) = false :=
        hash_not_newmtl h1 name.data
      exact forall_cons_of_head hline
    · rw [if_neg h1]
      by_cases h2 : startsWithL line "newmtl".data = true
      · rw [if_pos h2]
        by_cases h3 : startsWithL line ("newmtl ".data ++ name.data) = true
        · rw [if_pos h3]
          rw [mtlLoop_found filepath name rest]
          constructor
          · intro hfalse
            exact absurd hfalse (by simp)
          · intro hall
            have := hall (n, line) (List.mem_cons_self _ _)
            rw [h3] at this
            exact absurd this (by simp)
        · rw [if_neg h3]
          simp only [Bool.false_eq_true, if_false]
          rw [ih parsed]
          have hline : startsWithL line ("newmtl ".data ++ name.data) = false := by
            cases hval : startsWithL line ("newmtl ".data ++ name.data) with
            | false => rfl
            | true => exact absurd hval h3
          exact forall_cons_of_head hline
      · rw [if_neg h2]
        simp only [Bool.false_eq_true, if_false]
        rw [ih parsed]
        have hline : startsWithL line ("newmtl ".data ++ name.data) = false := by
          cases hval : startsWithL line ("newmtl ".data ++ name.data) with
          | false => rfl
          | true => exact absurd (hweak line hval) h2
        exact forall_cons_of_head hline

/-- C10 (counterexample): the claim as stated is false.  In a file whose
first line is `newmtl red` and whose second line is `Ka x y z`, a matching
`newmtl` line exists, yet `parse_mtl` returns a `Parse` error (the color
line fails numeric parsing), not `Ok`. -/
theorem c10_counterexample :
    ((linesOf c10src.data).any fun l => startsWithL l ("newmtl ".data ++ "red".data)) = true ∧
    parse_mtl "m.mtl" c10src "red" = MTLResult.parseError "m.mtl" 1 "could not parseKa" := by
  decide

/-- C10 (amended): `parse_mtl` matches a material by line prefix, not exact
name equality: it returns `MtlNotFound` exactly when no line of the file
starts with `"newmtl "` followed by the requested name (so requesting
`red` is also satisfied by a material named `redder` — second conjunct);
when a matching line exists the result is `Ok` with the collected property
lines unless a property line of the collected region fails to parse, in
which case a `Parse` error is returned instead of `Ok`. -/
theorem c10_amended :
    (∀ filepath content name : String,
      ((parse_mtl filepath content name).isNotFound = true ↔
        ∀ line ∈ linesOf content.data,
          startsWithL line ("newmtl ".data ++ name.data) = false)) ∧
    parse_mtl "m.mtl" c10redder "red" =
      MTLResult.ok { name := some "red", kd := some (1, 0, 0) } := by
  constructor
  · intro filepath content name
    rw [show parse_mtl filepath content name =
          mtlLoop filepath name ((linesOf content.data).enum) {} false from rfl]
    rw [mtlLoop_notFound_iff filepath name ((linesOf content.data).enum) {}]
    constructor
    · intro h line hl
      have hl2 : line ∈ ((linesOf content.data).enum.map Prod.snd) := by
        rw [List.enum_map_snd]
        exact hl
      obtain ⟨p, hp, hps⟩ := List.mem_map.mp hl2
      have := h p hp
      rw [hps] at this
      exact this
    · intro h p hp
      refine h p.2 ?_
      rw [← List.enum_map_snd (linesOf content.data)]
      exact List.mem_map.mpr ⟨p, hp, rfl⟩
  · decide

/-- Witness for C10 (amended): a file with no `newmtl` line at all reports
`MtlNotFound`. -/
theorem c10_amended_witness :
    (parse_mtl "m.mtl" "Kd 1 0 0" "red").isNotFound = true :=
  (c10_amended.1 "m.mtl" "Kd 1 0 0" "red").mpr (by decide)
